import Mathlib

/-!
Shallow embedding of the typed-event layer of the `ruma` repository
(`src/room/encrypted.rs`, `src/presence.rs`): JSON-like value trees, the
`m.room.encrypted` event envelope and content payloads, the discriminated
content deserializer, the derived serializers, the raw→typed projection
(`from_raw`), and the `m.presence` event abstraction.
-/

/-- A JSON-like structured value tree (serde_json `Value`).  Objects are
field lists with string keys; numbers are modelled as integers, which covers
every numeric value the embedded code reads or writes. -/
inductive Json where
  | null : Json
  | bool (b : Bool) : Json
  | num (n : Int) : Json
  | str (s : String) : Json
  | arr (elems : List Json) : Json
  | obj (fields : List (String × Json)) : Json

/-- Field lookup in an object's field list (first occurrence wins; serde_json
maps have unique keys). -/
def getField : List (String × Json) → String → Option Json
  | [], _ => none
  | (k, v) :: rest, key => if key = k then some v else getField rest key

/-- `serde_json::Value::get` with a string index: a field of an object,
`none` on any non-object. -/
def Json.get : Json → String → Option Json
  | .obj fields, key => getField fields key
  | _, _ => none

/-- Modelled from the spec: the `Algorithm` discriminator type lives in the
crate root of this repository, outside the provided sources.  Per the spec,
the recognized tags are exactly `"m.olm.v1.curve25519-aes-sha2"` and
`"m.megolm.v1.aes-sha2"`; any other string is the custom/extension case, and
a reserved non-constructible extensibility marker exists alongside them. -/
inductive Algorithm where
  | OlmV1Curve25519AesSha2 : Algorithm
  | MegolmV1AesSha2 : Algorithm
  | Custom (s : String) : Algorithm
  | __Nonexhaustive : Algorithm
deriving DecidableEq

/-- The exact discriminator string of the Olm variant. -/
def olmTag : String := "m.olm.v1.curve25519-aes-sha2"

/-- The exact discriminator string of the Megolm variant. -/
def megolmTag : String := "m.megolm.v1.aes-sha2"

/-- Modelled from the spec: serialization of `Algorithm` writes the
discriminator's own serialized string form.  The reserved marker is never
serialized (it must never be reachable at runtime). -/
def serAlgorithm : Algorithm → Json
  | .OlmV1Curve25519AesSha2 => .str olmTag
  | .MegolmV1AesSha2 => .str megolmTag
  | .Custom s => .str s
  | .__Nonexhaustive => .null

/-- Modelled from the spec: decoding a JSON value into `Algorithm`.  A string
is parsed into the matching recognized tag, any other string into the
custom/extension case; a non-string fails. -/
def deserAlgorithm : Json → Except String Algorithm
  | .str s =>
    if s = olmTag then .ok .OlmV1Curve25519AesSha2
    else if s = megolmTag then .ok .MegolmV1AesSha2
    else .ok (.Custom s)
  | _ => .error "invalid type: expected a string"

/-- Maximum value of `js_int::UInt` (`2^53 - 1`). -/
def uintMax : Nat := 9007199254740991

/-- Ciphertext information holding the ciphertext and message type
(`CiphertextInfo` in `room/encrypted.rs`; `message_type` is a `js_int::UInt`,
serialized under the key `"type"`). -/
structure CiphertextInfo where
  body : String
  message_type : Nat
deriving DecidableEq

/-- The payload for `EncryptedEvent` using the *m.olm.v1.curve25519-aes-sha2*
algorithm.  The `ciphertext` field is a `BTreeMap<String, CiphertextInfo>`,
modelled as its entry list in strictly increasing key order. -/
structure OlmV1Curve25519AesSha2Content where
  algorithm : Algorithm
  ciphertext : List (String × CiphertextInfo)
  sender_key : String
deriving DecidableEq

/-- The payload for `EncryptedEvent` using the *m.megolm.v1.aes-sha2*
algorithm. -/
structure MegolmV1AesSha2Content where
  algorithm : Algorithm
  ciphertext : String
  sender_key : String
  device_id : String
  session_id : String
deriving DecidableEq

/-- Modelled from the spec: `UnsignedData` lives in the crate root of this
repository, outside the provided sources.  It is the unsigned side-data
object; all of its fields are optional and its default value is the empty
one. -/
structure UnsignedData where
  age : Option Int
  transaction_id : Option String
deriving DecidableEq

/-- The default (empty) `UnsignedData` value. -/
def defaultUnsigned : UnsignedData := ⟨none, none⟩

namespace raw

/-- The raw, wire-faithful payload shape for `EncryptedEvent`
(`raw::EncryptedEventContent`). -/
inductive EncryptedEventContent where
  | OlmV1Curve25519AesSha2 (content : OlmV1Curve25519AesSha2Content) : EncryptedEventContent
  | MegolmV1AesSha2 (content : MegolmV1AesSha2Content) : EncryptedEventContent
  | __Nonexhaustive : EncryptedEventContent
deriving DecidableEq

/-- The raw, wire-faithful envelope shape (`raw::EncryptedEvent`).
Identifiers are externally validated opaque strings; `origin_server_ts` is
milliseconds since the epoch. -/
structure EncryptedEvent where
  content : EncryptedEventContent
  event_id : String
  origin_server_ts : Nat
  room_id : Option String
  sender : String
  unsigned : UnsignedData
deriving DecidableEq

end raw

/-- The typed payload for `EncryptedEvent` (`EncryptedEventContent`). -/
inductive EncryptedEventContent where
  | OlmV1Curve25519AesSha2 (content : OlmV1Curve25519AesSha2Content) : EncryptedEventContent
  | MegolmV1AesSha2 (content : MegolmV1AesSha2Content) : EncryptedEventContent
  | __Nonexhaustive : EncryptedEventContent
deriving DecidableEq

/-- The typed envelope for the *m.room.encrypted* event (`EncryptedEvent`). -/
structure EncryptedEvent where
  content : EncryptedEventContent
  event_id : String
  origin_server_ts : Nat
  room_id : Option String
  sender : String
  unsigned : UnsignedData
deriving DecidableEq

/-- `FromRaw for EncryptedEventContent`: the raw→typed projection.  The Rust
code hits `unreachable!` on the reserved marker; that fatal fault is modelled
as `none`. -/
def EncryptedEventContent.from_raw : raw.EncryptedEventContent → Option EncryptedEventContent
  | .OlmV1Curve25519AesSha2 content => some (.OlmV1Curve25519AesSha2 content)
  | .MegolmV1AesSha2 content => some (.MegolmV1AesSha2 content)
  | .__Nonexhaustive => none

/-- `FromRaw for EncryptedEvent`: field-for-field projection, delegating the
content to `EncryptedEventContent.from_raw`. -/
def EncryptedEvent.from_raw (r : raw.EncryptedEvent) : Option EncryptedEvent :=
  match EncryptedEventContent.from_raw r.content with
  | some content =>
    some ⟨content, r.event_id, r.origin_server_ts, r.room_id, r.sender, r.unsigned⟩
  | none => none

/-! ### Serialization (the derived `Serialize` impls) -/

/-- Derived serialization of `CiphertextInfo`: fields in declaration order,
`message_type` renamed to `"type"`. -/
def serCiphertextInfo (c : CiphertextInfo) : Json :=
  .obj [("body", .str c.body), ("type", .num (Int.ofNat c.message_type))]

/-- Serialization of the `ciphertext` map of the Olm variant: a JSON object
with one field per entry, in map (key) order. -/
def serCiphertextMap (m : List (String × CiphertextInfo)) : Json :=
  .obj (m.map fun p => (p.1, serCiphertextInfo p.2))

/-- Derived serialization of `OlmV1Curve25519AesSha2Content`: fields in
declaration order. -/
def serOlmContent (c : OlmV1Curve25519AesSha2Content) : Json :=
  .obj [("algorithm", serAlgorithm c.algorithm),
        ("ciphertext", serCiphertextMap c.ciphertext),
        ("sender_key", .str c.sender_key)]

/-- Derived serialization of `MegolmV1AesSha2Content`: fields in declaration
order. -/
def serMegolmContent (c : MegolmV1AesSha2Content) : Json :=
  .obj [("algorithm", serAlgorithm c.algorithm),
        ("ciphertext", .str c.ciphertext),
        ("sender_key", .str c.sender_key),
        ("device_id", .str c.device_id),
        ("session_id", .str c.session_id)]

/-- Modelled from the spec: serialization of `UnsignedData` (its fields are
optional and skipped when absent). -/
def serUnsigned (u : UnsignedData) : Json :=
  .obj ((match u.age with | some a => [("age", Json.num a)] | none => []) ++
        (match u.transaction_id with
         | some t => [("transaction_id", Json.str t)]
         | none => []))

/-- Derived `#[serde(untagged)]` serialization of `EncryptedEventContent`:
each variant serializes its content directly; the unit marker serializes as
`null`. -/
def serContent : EncryptedEventContent → Json
  | .OlmV1Curve25519AesSha2 c => serOlmContent c
  | .MegolmV1AesSha2 c => serMegolmContent c
  | .__Nonexhaustive => .null

/-- Derived `#[serde(tag = "type", rename = "m.room.encrypted")]`
serialization of `EncryptedEvent`: the tag field first, then the fields in
declaration order; `room_id` is skipped when `none` and `unsigned` is skipped
when it is the default value. -/
def serEvent (e : EncryptedEvent) : Json :=
  .obj ([("type", Json.str "m.room.encrypted"),
         ("content", serContent e.content),
         ("event_id", Json.str e.event_id),
         ("origin_server_ts", Json.num (Int.ofNat e.origin_server_ts))] ++
        (match e.room_id with
         | some r => [("room_id", Json.str r)]
         | none => []) ++
        [("sender", Json.str e.sender)] ++
        (if e.unsigned = defaultUnsigned then []
         else [("unsigned", serUnsigned e.unsigned)]))

/-! ### Deserialization

The content deserializer is the hand-written
`impl Deserialize for raw::EncryptedEventContent`; the rest are the derived
`Deserialize` impls of the field types.  Inner deserializers report errors as
message strings (the Rust code surfaces them through
`D::Error::custom(error.to_string())`). -/

/-- Derived deserialization of a string field. -/
def deserString : Json → Except String String
  | .str s => .ok s
  | _ => .error "invalid type: expected a string"

/-- Deserialization of a `js_int::UInt`: a number in `0 ..= 2^53 - 1`. -/
def deserUInt : Json → Except String Nat
  | .num n =>
    if 0 ≤ n ∧ n ≤ Int.ofNat uintMax then .ok n.toNat
    else .error "out of range integral type conversion attempted"
  | _ => .error "invalid type: expected a number"

/-- Derived deserialization of `CiphertextInfo` (required fields `body` and
`"type"`; unknown fields ignored). -/
def deserCiphertextInfo : Json → Except String CiphertextInfo
  | .obj fields =>
    match getField fields "body" with
    | none => .error "missing field `body`"
    | some jb =>
      match deserString jb with
      | .error e => .error e
      | .ok body =>
        match getField fields "type" with
        | none => .error "missing field `type`"
        | some jt =>
          match deserUInt jt with
          | .error e => .error e
          | .ok t => .ok ⟨body, t⟩
  | _ => .error "invalid type: expected struct CiphertextInfo"

/-- `BTreeMap` insertion on the sorted entry-list model: insert in key
order, replacing an existing entry with the same key. -/
def btreeInsert : List (String × CiphertextInfo) → String → CiphertextInfo →
    List (String × CiphertextInfo)
  | [], k, v => [(k, v)]
  | (k', v') :: rest, k, v =>
    if k < k' then (k, v) :: (k', v') :: rest
    else if k = k' then (k, v) :: rest
    else (k', v') :: btreeInsert rest k v

/-- Deserialization of the entries of a `BTreeMap<String, CiphertextInfo>`:
each value is deserialized in object order and inserted into the map. -/
def deserCiphertextEntries : List (String × Json) → List (String × CiphertextInfo) →
    Except String (List (String × CiphertextInfo))
  | [], acc => .ok acc
  | (k, jv) :: rest, acc =>
    match deserCiphertextInfo jv with
    | .error e => .error e
    | .ok ci => deserCiphertextEntries rest (btreeInsert acc k ci)

/-- Derived deserialization of `BTreeMap<String, CiphertextInfo>`: the value
must be an object. -/
def deserCiphertextMap : Json → Except String (List (String × CiphertextInfo))
  | .obj fields => deserCiphertextEntries fields []
  | _ => .error "invalid type: expected a map"

/-- Derived deserialization of `OlmV1Curve25519AesSha2Content` (required
fields `algorithm`, `ciphertext`, `sender_key`; unknown fields ignored). -/
def deserOlmContent : Json → Except String OlmV1Curve25519AesSha2Content
  | .obj fields =>
    match getField fields "algorithm" with
    | none => .error "missing field `algorithm`"
    | some ja =>
      match deserAlgorithm ja with
      | .error e => .error e
      | .ok algorithm =>
        match getField fields "ciphertext" with
        | none => .error "missing field `ciphertext`"
        | some jc =>
          match deserCiphertextMap jc with
          | .error e => .error e
          | .ok ciphertext =>
            match getField fields "sender_key" with
            | none => .error "missing field `sender_key`"
            | some js =>
              match deserString js with
              | .error e => .error e
              | .ok sender_key => .ok ⟨algorithm, ciphertext, sender_key⟩
  | _ => .error "invalid type: expected struct OlmV1Curve25519AesSha2Content"

/-- Derived deserialization of `MegolmV1AesSha2Content` (required fields
`algorithm`, `ciphertext`, `sender_key`, `device_id`, `session_id`; unknown
fields ignored). -/
def deserMegolmContent : Json → Except String MegolmV1AesSha2Content
  | .obj fields =>
    match getField fields "algorithm" with
    | none => .error "missing field `algorithm`"
    | some ja =>
      match deserAlgorithm ja with
      | .error e => .error e
      | .ok algorithm =>
        match getField fields "ciphertext" with
        | none => .error "missing field `ciphertext`"
        | some jc =>
          match deserString jc with
          | .error e => .error e
          | .ok ciphertext =>
            match getField fields "sender_key" with
            | none => .error "missing field `sender_key`"
            | some js =>
              match deserString js with
              | .error e => .error e
              | .ok sender_key =>
                match getField fields "device_id" with
                | none => .error "missing field `device_id`"
                | some jd =>
                  match deserString jd with
                  | .error e => .error e
                  | .ok device_id =>
                    match getField fields "session_id" with
                    | none => .error "missing field `session_id`"
                    | some jss =>
                      match deserString jss with
                      | .error e => .error e
                      | .ok session_id =>
                        .ok ⟨algorithm, ciphertext, sender_key, device_id, session_id⟩
  | _ => .error "invalid type: expected struct MegolmV1AesSha2Content"

/-- The deserializer error type (`D::Error`): `missing_field` and `custom`
are the two constructors the embedded code invokes. -/
inductive DeError where
  | missingField (field : String) : DeError
  | custom (msg : String) : DeError
deriving DecidableEq

/-- The hand-written `impl Deserialize for raw::EncryptedEventContent`
(`room/encrypted.rs`): read the `algorithm` field, parse it as an
`Algorithm`, dispatch to the matching variant's strict decode, reject the
custom case and the reserved marker. -/
def rawContentDeserialize (value : Json) : Except DeError raw.EncryptedEventContent :=
  match value.get "algorithm" with
  | none => .error (.missingField "algorithm")
  | some methodValue =>
    match deserAlgorithm methodValue with
    | .error e => .error (.custom e)
    | .ok method =>
      match method with
      | .OlmV1Curve25519AesSha2 =>
        match deserOlmContent value with
        | .error e => .error (.custom e)
        | .ok content => .ok (.OlmV1Curve25519AesSha2 content)
      | .MegolmV1AesSha2 =>
        match deserMegolmContent value with
        | .error e => .error (.custom e)
        | .ok content => .ok (.MegolmV1AesSha2 content)
      | .Custom _ =>
        .error (.custom "Custom algorithms are not supported by `EncryptedEventContent`.")
      | .__Nonexhaustive =>
        .error (.custom "Attempted to deserialize __Nonexhaustive variant.")

/-- Modelled from the spec: deserialization of `UnsignedData`; every field is
optional. -/
def deserUnsigned : Json → Except String UnsignedData
  | .obj fields =>
    match (match getField fields "age" with
           | none => Except.ok (none : Option Int)
           | some (.num a) => Except.ok (some a)
           | some _ => Except.error "invalid type: expected a number") with
    | .error e => .error e
    | .ok age =>
      match (match getField fields "transaction_id" with
             | none => Except.ok (none : Option String)
             | some (.str t) => Except.ok (some t)
             | some _ => Except.error "invalid type: expected a string") with
      | .error e => .error e
      | .ok transaction_id => .ok ⟨age, transaction_id⟩
  | _ => .error "invalid type: expected struct UnsignedData"

/-- Deserialization of `origin_server_ts` through
`ruma_serde::time::ms_since_unix_epoch`: a non-negative integer number of
milliseconds. -/
def deserTimestamp : Json → Except String Nat
  | .num n =>
    if 0 ≤ n ∧ n ≤ Int.ofNat uintMax then .ok n.toNat
    else .error "out of range integral type conversion attempted"
  | _ => .error "invalid type: expected a number"

/-- The derived `Deserialize` impl of `raw::EncryptedEvent`: required fields
`content`, `event_id`, `origin_server_ts`, `sender`; `room_id` is optional
(`none` when absent) and `unsigned` falls back to its default when absent;
unknown fields (such as the outer `"type"` tag) are ignored. -/
def rawEventDeserialize : Json → Except DeError raw.EncryptedEvent
  | .obj fields =>
    match getField fields "content" with
    | none => .error (.missingField "content")
    | some jc =>
      match rawContentDeserialize jc with
      | .error e => .error e
      | .ok content =>
        match getField fields "event_id" with
        | none => .error (.missingField "event_id")
        | some je =>
          match deserString je with
          | .error e => .error (.custom e)
          | .ok event_id =>
            match getField fields "origin_server_ts" with
            | none => .error (.missingField "origin_server_ts")
            | some jt =>
              match deserTimestamp jt with
              | .error e => .error (.custom e)
              | .ok origin_server_ts =>
                match (match getField fields "room_id" with
                       | none => Except.ok (none : Option String)
                       | some jr =>
                         match deserString jr with
                         | .error e => Except.error e
                         | .ok r => Except.ok (some r)) with
                | .error e => .error (.custom e)
                | .ok room_id =>
                  match getField fields "sender" with
                  | none => .error (.missingField "sender")
                  | some jsnd =>
                    match deserString jsnd with
                    | .error e => .error (.custom e)
                    | .ok sender =>
                      match (match getField fields "unsigned" with
                             | none => Except.ok defaultUnsigned
                             | some ju => deserUnsigned ju) with
                      | .error e => .error (.custom e)
                      | .ok unsigned =>
                        .ok ⟨content, event_id, origin_server_ts, room_id, sender, unsigned⟩
  | _ => .error (.custom "invalid type: expected struct EncryptedEvent")

/-- The full public decode path for content: the raw deserializer followed by
the raw→typed projection (`none` marks the unreachable fatal fault). -/
def decodeContent (j : Json) : Except DeError (Option EncryptedEventContent) :=
  (rawContentDeserialize j).map EncryptedEventContent.from_raw

/-- The full public decode path for the envelope: the raw deserializer
followed by the raw→typed projection. -/
def decodeEvent (j : Json) : Except DeError (Option EncryptedEvent) :=
  (rawEventDeserialize j).map EncryptedEvent.from_raw

/-! ### The `m.presence` event (`presence.rs`) -/

/-- A description of a user's connectivity and availability for chat. -/
inductive PresenceState where
  | FreeForChat : PresenceState
  | Hidden : PresenceState
  | Offline : PresenceState
  | Online : PresenceState
  | Unavailable : PresenceState
deriving DecidableEq

/-- The payload of a `Presence` event. -/
structure PresenceContent where
  avatar_url : Option String
  displayname : Option String
  last_active_ago : Option Nat
  presence : PresenceState
deriving DecidableEq

/-- Informs the client of a user's presence state change. -/
structure Presence where
  content : PresenceContent
  event_id : String
deriving DecidableEq

/-- The `Event` trait from the crate core: a capability exposed over every
concrete event type, giving its content and its constant type tag. -/
class Event (α : Type) (C : outParam Type) where
  content : α → C
  event_type : α → String

/-- `impl Event for Presence` (`presence.rs`): `content` returns the value's
own content field and `event_type` returns the constant `"m.presence"`. -/
instance : Event Presence PresenceContent where
  content p := p.content
  event_type _ := "m.presence"

deriving instance DecidableEq for Except

/-- A constructible value of the typed content that respects the invariants
the Rust types enforce (`BTreeMap` keys strictly sorted, `js_int::UInt`
bounded) and whose stored `algorithm` tag matches its variant identity. -/
def wellFormedContent : EncryptedEventContent → Prop
  | .OlmV1Curve25519AesSha2 c =>
    c.algorithm = .OlmV1Curve25519AesSha2 ∧
    c.ciphertext.Pairwise (fun a b => a.1 < b.1) ∧
    ∀ p ∈ c.ciphertext, p.2.message_type ≤ uintMax
  | .MegolmV1AesSha2 c => c.algorithm = .MegolmV1AesSha2
  | .__Nonexhaustive => False

/-- The raw image of a typed content value (the embedding's inverse of
`EncryptedEventContent.from_raw`, used to state round-trip lemmas). -/
def toRaw : EncryptedEventContent → raw.EncryptedEventContent
  | .OlmV1Curve25519AesSha2 c => .OlmV1Curve25519AesSha2 c
  | .MegolmV1AesSha2 c => .MegolmV1AesSha2 c
  | .__Nonexhaustive => .__Nonexhaustive

/-- The object keys named in the Olm variant's schema. -/
def olmKeys : List String := ["algorithm", "ciphertext", "sender_key"]

/-- The object keys named in the Megolm variant's schema. -/
def megolmKeys : List String :=
  ["algorithm", "ciphertext", "sender_key", "device_id", "session_id"]

/-- The extra key `k` is outside the schema of the decoded variant. -/
def variantExtraKeyOk : raw.EncryptedEventContent → String → Prop
  | .OlmV1Curve25519AesSha2 _, k => k ∉ olmKeys
  | .MegolmV1AesSha2 _, k => k ∉ megolmKeys
  | .__Nonexhaustive, _ => True

/-- The string `tag` occurs (as a contiguous substring) in the message
`msg`. -/
def strMentions (msg tag : String) : Prop := tag.data <:+: msg.data

/-! ### Helper lemmas -/

theorem btreeInsert_append (acc : List (String × CiphertextInfo)) (k : String)
    (v : CiphertextInfo) (h : ∀ p ∈ acc, p.1 < k) :
    btreeInsert acc k v = acc ++ [(k, v)] := by
  induction acc with
  | nil => rfl
  | cons hd tl ih =>
    obtain ⟨k', v'⟩ := hd
    have hk : k' < k := h (k', v') (List.mem_cons_self _ _)
    have h1 : ¬ k < k' := lt_asymm hk
    have h2 : k ≠ k' := (ne_of_lt hk).symm
    simp only [btreeInsert, if_neg h1, if_neg h2,
               ih (fun p hp => h p (List.mem_cons_of_mem _ hp))]
    rfl

theorem deserCiphertextInfo_ser (ci : CiphertextInfo) (h : ci.message_type ≤ uintMax) :
    deserCiphertextInfo (serCiphertextInfo ci) = .ok ci := by
  simp [serCiphertextInfo, deserCiphertextInfo, getField, deserString, deserUInt,
        Int.ofNat_le, h]

theorem deserCiphertextEntries_ser (entries : List (String × CiphertextInfo)) :
    ∀ acc, entries.Pairwise (fun a b => a.1 < b.1) →
    (∀ p ∈ acc, ∀ q ∈ entries, p.1 < q.1) →
    (∀ p ∈ entries, p.2.message_type ≤ uintMax) →
    deserCiphertextEntries (entries.map fun p => (p.1, serCiphertextInfo p.2)) acc =
      .ok (acc ++ entries) := by
  induction entries with
  | nil => intro acc _ _ _; simp [deserCiphertextEntries]
  | cons hd tl ih =>
    intro acc hsort hacc hbound
    obtain ⟨k, ci⟩ := hd
    rw [List.pairwise_cons] at hsort
    simp only [List.map_cons, deserCiphertextEntries,
               deserCiphertextInfo_ser ci (hbound (k, ci) (List.mem_cons_self _ _))]
    rw [btreeInsert_append acc k ci (fun p hp => hacc p hp (k, ci) (List.mem_cons_self _ _))]
    have hacc' : ∀ p ∈ acc ++ [(k, ci)], ∀ q ∈ tl, p.1 < q.1 := by
      intro p hp q hq
      rcases List.mem_append.mp hp with hpa | hpk
      · exact hacc p hpa q (List.mem_cons_of_mem _ hq)
      · have : p = (k, ci) := List.mem_singleton.mp hpk
        exact this ▸ hsort.1 q hq
    have := ih (acc ++ [(k, ci)]) hsort.2 hacc'
      (fun p hp => hbound p (List.mem_cons_of_mem _ hp))
    simpa [List.append_assoc] using this

theorem rawContentDeserialize_ser (v : EncryptedEventContent) (h : wellFormedContent v) :
    rawContentDeserialize (serContent v) = .ok (toRaw v) := by
  match v with
  | .OlmV1Curve25519AesSha2 c =>
    obtain ⟨a, ct, sk⟩ := c
    obtain ⟨halg, hsort, hbound⟩ := h
    simp only at halg
    subst halg
    have hmap := deserCiphertextEntries_ser ct [] (by simpa using hsort)
      (by simp) (by simpa using hbound)
    simp [serContent, serOlmContent, serAlgorithm, rawContentDeserialize, Json.get,
          getField, deserAlgorithm, olmTag, megolmTag, deserOlmContent,
          serCiphertextMap, deserCiphertextMap, deserString, toRaw, hmap]
  | .MegolmV1AesSha2 c =>
    obtain ⟨a, ct, sk, dev, sess⟩ := c
    simp only [wellFormedContent] at h
    subst h
    simp [serContent, serMegolmContent, serAlgorithm, rawContentDeserialize, Json.get,
          getField, deserAlgorithm, olmTag, megolmTag, deserMegolmContent,
          deserString, toRaw]
  | .__Nonexhaustive => exact absurd h (by simp [wellFormedContent])

theorem from_raw_toRaw (v : EncryptedEventContent) (h : v ≠ .__Nonexhaustive) :
    EncryptedEventContent.from_raw (toRaw v) = some v := by
  cases v <;> simp_all [toRaw, EncryptedEventContent.from_raw]

theorem decode_ok_not_nonexhaustive (j : Json) (r : raw.EncryptedEventContent)
    (h : rawContentDeserialize j = .ok r) :
    r ≠ raw.EncryptedEventContent.__Nonexhaustive ∧
    ∃ t, EncryptedEventContent.from_raw r = some t := by
  unfold rawContentDeserialize at h
  iterate 5 (all_goals (try split at h))
  all_goals (try (injection h with h; subst h))
  all_goals simp_all [EncryptedEventContent.from_raw]

theorem deserUnsigned_ser (u : UnsignedData) : deserUnsigned (serUnsigned u) = .ok u := by
  obtain ⟨a, t⟩ := u
  cases a <;> cases t <;> simp [serUnsigned, deserUnsigned, getField]

theorem getField_append_ne (fields : List (String × Json)) (k : String) (v : Json)
    (key : String) (hne : key ≠ k) :
    getField (fields ++ [(k, v)]) key = getField fields key := by
  induction fields with
  | nil => simp [getField, hne]
  | cons hd tl ih =>
    obtain ⟨k', v'⟩ := hd
    by_cases hk : key = k'
    · simp [getField, hk]
    · simp [getField, hk, ih]

theorem rawEventDeserialize_ser (e : EncryptedEvent) (hc : wellFormedContent e.content)
    (hts : e.origin_server_ts ≤ uintMax) :
    rawEventDeserialize (serEvent e) =
      .ok ⟨toRaw e.content, e.event_id, e.origin_server_ts, e.room_id, e.sender,
           e.unsigned⟩ := by
  obtain ⟨c, eid, ts, rid, snd, uns⟩ := e
  simp only at hc hts
  have hcont := rawContentDeserialize_ser c hc
  cases rid with
  | none =>
    by_cases huns : uns = defaultUnsigned
    · subst huns
      simp [serEvent, rawEventDeserialize, getField, hcont, deserString, deserTimestamp,
            Int.ofNat_le, hts]
    · simp [serEvent, rawEventDeserialize, getField, hcont, deserString, deserTimestamp,
            Int.ofNat_le, hts, huns, deserUnsigned_ser]
  | some r =>
    by_cases huns : uns = defaultUnsigned
    · subst huns
      simp [serEvent, rawEventDeserialize, getField, hcont, deserString, deserTimestamp,
            Int.ofNat_le, hts]
    · simp [serEvent, rawEventDeserialize, getField, hcont, deserString, deserTimestamp,
            Int.ofNat_le, hts, huns, deserUnsigned_ser]

theorem deserOlmContent_algorithm (fields : List (String × Json))
    (c : OlmV1Curve25519AesSha2Content) (h : deserOlmContent (.obj fields) = .ok c) :
    ∃ ja, getField fields "algorithm" = some ja ∧ deserAlgorithm ja = .ok c.algorithm := by
  simp only [deserOlmContent] at h
  cases hga : getField fields "algorithm" with
  | none => simp [hga] at h
  | some ja =>
    simp only [hga] at h
    cases hda : deserAlgorithm ja with
    | error e => simp [hda] at h
    | ok alg =>
      simp only [hda] at h
      cases hgc : getField fields "ciphertext" with
      | none => simp [hgc] at h
      | some jc =>
        simp only [hgc] at h
        cases hdm : deserCiphertextMap jc with
        | error e => simp [hdm] at h
        | ok ct =>
          simp only [hdm] at h
          cases hgs : getField fields "sender_key" with
          | none => simp [hgs] at h
          | some jss =>
            simp only [hgs] at h
            cases hds : deserString jss with
            | error e => simp [hds] at h
            | ok sk =>
              simp only [hds] at h
              injection h with h
              subst h
              exact ⟨ja, rfl, hda⟩

theorem deserMegolmContent_algorithm (fields : List (String × Json))
    (c : MegolmV1AesSha2Content) (h : deserMegolmContent (.obj fields) = .ok c) :
    ∃ ja, getField fields "algorithm" = some ja ∧ deserAlgorithm ja = .ok c.algorithm := by
  simp only [deserMegolmContent] at h
  cases hga : getField fields "algorithm" with
  | none => simp [hga] at h
  | some ja =>
    simp only [hga] at h
    cases hda : deserAlgorithm ja with
    | error e => simp [hda] at h
    | ok alg =>
      simp only [hda] at h
      cases hgc : getField fields "ciphertext" with
      | none => simp [hgc] at h
      | some jc =>
        simp only [hgc] at h
        cases hdc : deserString jc with
        | error e => simp [hdc] at h
        | ok ct =>
          simp only [hdc] at h
          cases hgs : getField fields "sender_key" with
          | none => simp [hgs] at h
          | some jss =>
            simp only [hgs] at h
            cases hds : deserString jss with
            | error e => simp [hds] at h
            | ok sk =>
              simp only [hds] at h
              cases hgd : getField fields "device_id" with
              | none => simp [hgd] at h
              | some jd =>
                simp only [hgd] at h
                cases hdd : deserString jd with
                | error e => simp [hdd] at h
                | ok dev =>
                  simp only [hdd] at h
                  cases hgss : getField fields "session_id" with
                  | none => simp [hgss] at h
                  | some jsess =>
                    simp only [hgss] at h
                    cases hdss : deserString jsess with
                    | error e => simp [hdss] at h
                    | ok sess =>
                      simp only [hdss] at h
                      injection h with h
                      subst h
                      exact ⟨ja, rfl, hda⟩

theorem deserOlmContent_append (fields : List (String × Json)) (k : String) (v : Json)
    (hk : k ∉ olmKeys) :
    deserOlmContent (.obj (fields ++ [(k, v)])) = deserOlmContent (.obj fields) := by
  have h1 : "algorithm" ≠ k := fun he => hk (he ▸ by simp [olmKeys])
  have h2 : "ciphertext" ≠ k := fun he => hk (he ▸ by simp [olmKeys])
  have h3 : "sender_key" ≠ k := fun he => hk (he ▸ by simp [olmKeys])
  simp only [deserOlmContent, getField_append_ne fields k v _ h1,
             getField_append_ne fields k v _ h2, getField_append_ne fields k v _ h3]

theorem deserMegolmContent_append (fields : List (String × Json)) (k : String) (v : Json)
    (hk : k ∉ megolmKeys) :
    deserMegolmContent (.obj (fields ++ [(k, v)])) = deserMegolmContent (.obj fields) := by
  have h1 : "algorithm" ≠ k := fun he => hk (he ▸ by simp [megolmKeys])
  have h2 : "ciphertext" ≠ k := fun he => hk (he ▸ by simp [megolmKeys])
  have h3 : "sender_key" ≠ k := fun he => hk (he ▸ by simp [megolmKeys])
  have h4 : "device_id" ≠ k := fun he => hk (he ▸ by simp [megolmKeys])
  have h5 : "session_id" ≠ k := fun he => hk (he ▸ by simp [megolmKeys])
  simp only [deserMegolmContent, getField_append_ne fields k v _ h1,
             getField_append_ne fields k v _ h2, getField_append_ne fields k v _ h3,
             getField_append_ne fields k v _ h4, getField_append_ne fields k v _ h5]

/-! ### Claims -/

/-- Claim C3: deserializing the content object with algorithm
`"m.custom.unknown"` fails with the distinct unsupported-discriminator error
(the custom-algorithms-rejected message), which differs both from the
invalid-discriminator error produced for a malformed (non-string) tag and
from the missing-discriminator error. -/
theorem unsupported_discriminator_distinct :
    rawContentDeserialize (.obj [("algorithm", .str "m.custom.unknown")]) =
      .error (.custom "Custom algorithms are not supported by `EncryptedEventContent`.") ∧
    rawContentDeserialize (.obj [("algorithm", .num 5)]) =
      .error (.custom "invalid type: expected a string") ∧
    DeError.custom "Custom algorithms are not supported by `EncryptedEventContent`." ≠
      DeError.custom "invalid type: expected a string" ∧
    DeError.custom "Custom algorithms are not supported by `EncryptedEventContent`." ≠
      DeError.missingField "algorithm" :=
  ⟨rfl, rfl, by decide, by decide⟩

/-- Claim C4: deserializing the empty content object fails with the
missing-discriminator error, and more generally whenever the `algorithm` key
is absent the decode returns exactly that error. -/
theorem missing_discriminator :
    rawContentDeserialize (.obj []) = .error (.missingField "algorithm") ∧
    ∀ j : Json, j.get "algorithm" = none →
      rawContentDeserialize j = .error (.missingField "algorithm") := by
  refine ⟨rfl, ?_⟩
  intro j h
  unfold rawContentDeserialize
  simp [h]

/-- Witness for C4: a concrete content object without an `algorithm` key. -/
theorem missing_discriminator_witness :
    Json.get (.obj [("x", .null)]) "algorithm" = none ∧
    rawContentDeserialize (.obj [("x", .null)]) = .error (.missingField "algorithm") :=
  ⟨rfl, missing_discriminator.2 (.obj [("x", .null)]) rfl⟩

/-- Counterexample for C5: the error produced for the partial Megolm payload
is only the stringified underlying cause; the chosen tag
`"m.megolm.v1.aes-sha2"` does not occur anywhere in it. -/
theorem variant_decode_error_lacks_tag :
    rawContentDeserialize (.obj [("algorithm", .str "m.megolm.v1.aes-sha2")]) =
      .error (.custom "missing field `ciphertext`") ∧
    ¬ strMentions "missing field `ciphertext`" "m.megolm.v1.aes-sha2" :=
  ⟨rfl, by unfold strMentions; decide⟩

/-- Claim C5 (amended): deserializing the partial Megolm content object fails
with the wrapped underlying cause (the missing `ciphertext` field); the
chosen tag is not included in the error. -/
theorem partial_variant_error_wraps_cause :
    rawContentDeserialize (.obj [("algorithm", .str "m.megolm.v1.aes-sha2")]) =
      .error (.custom "missing field `ciphertext`") := rfl

/-- Claim C6: the concrete Olm scenario decodes to the Olm variant with
sender key `"test_key"` and a one-entry ciphertext map keyed
`"test_curve_key"` with body `"encrypted_body"` and message type 1. -/
theorem olm_concrete_scenario :
    decodeContent (.obj [("sender_key", .str "test_key"),
      ("ciphertext", .obj [("test_curve_key",
        .obj [("body", .str "encrypted_body"), ("type", .num 1)])]),
      ("algorithm", .str "m.olm.v1.curve25519-aes-sha2")]) =
      .ok (some (.OlmV1Curve25519AesSha2
        ⟨.OlmV1Curve25519AesSha2, [("test_curve_key", ⟨"encrypted_body", 1⟩)],
         "test_key"⟩)) := rfl

/-- Claim C9: for every `Presence` value the `Event` capability returns the
constant type tag `"m.presence"` and the value's own content payload. -/
theorem presence_event_abstraction :
    ∀ p : Presence, Event.event_type p = "m.presence" ∧
      (Event.content p : PresenceContent) = p.content :=
  fun _ => ⟨rfl, rfl⟩

/-- Counterexample for C1: a constructible Megolm value whose stored
`algorithm` field is the Olm tag serializes under the Olm discriminator, so
deserializing its serialization fails instead of returning the value. -/
theorem roundtrip_fails_on_inconsistent_tag :
    decodeContent (serContent (.MegolmV1AesSha2
      ⟨Algorithm.OlmV1Curve25519AesSha2, "ciphertext", "sender_key", "device_id",
       "session_id"⟩)) ≠
      .ok (some (.MegolmV1AesSha2
        ⟨Algorithm.OlmV1Curve25519AesSha2, "ciphertext", "sender_key", "device_id",
         "session_id"⟩)) := by decide

/-- Claim C1 (amended): deserializing the serialization returns the original
value for every constructible Olm or Megolm content value whose stored
`algorithm` field matches its variant identity, and for every constructible
envelope whose content satisfies the same condition. -/
theorem roundtrip_encode_decode :
    (∀ v : EncryptedEventContent, wellFormedContent v →
      decodeContent (serContent v) = .ok (some v)) ∧
    (∀ e : EncryptedEvent, wellFormedContent e.content → e.origin_server_ts ≤ uintMax →
      decodeEvent (serEvent e) = .ok (some e)) := by
  constructor
  · intro v h
    have hne : v ≠ .__Nonexhaustive := by
      intro hv
      rw [hv] at h
      simp [wellFormedContent] at h
    simp [decodeContent, rawContentDeserialize_ser v h, Except.map, from_raw_toRaw v hne]
  · intro e hc hts
    have hne : e.content ≠ .__Nonexhaustive := by
      intro hv
      rw [hv] at hc
      simp [wellFormedContent] at hc
    simp [decodeEvent, rawEventDeserialize_ser e hc hts, Except.map,
          EncryptedEvent.from_raw, from_raw_toRaw e.content hne]

/-- Witness for C1: the round-trip theorem applied to a concrete Olm content
value and to a concrete Megolm envelope. -/
theorem roundtrip_encode_decode_witness :
    decodeContent (serContent (.OlmV1Curve25519AesSha2
      ⟨.OlmV1Curve25519AesSha2, [("test_curve_key", ⟨"encrypted_body", 1⟩)],
       "test_key"⟩)) =
      .ok (some (.OlmV1Curve25519AesSha2
        ⟨.OlmV1Curve25519AesSha2, [("test_curve_key", ⟨"encrypted_body", 1⟩)],
         "test_key"⟩)) ∧
    decodeEvent (serEvent ⟨.MegolmV1AesSha2
      ⟨.MegolmV1AesSha2, "ciphertext", "sender_key", "device_id", "session_id"⟩,
      "$h29iv0s8:example.com", 1432735824653, some "!roomid:room.com",
      "@alice:example.com", ⟨none, none⟩⟩) =
      .ok (some ⟨.MegolmV1AesSha2
        ⟨.MegolmV1AesSha2, "ciphertext", "sender_key", "device_id", "session_id"⟩,
        "$h29iv0s8:example.com", 1432735824653, some "!roomid:room.com",
        "@alice:example.com", ⟨none, none⟩⟩) :=
  ⟨roundtrip_encode_decode.1 _ (by refine ⟨rfl, ?_, ?_⟩ <;> decide),
   roundtrip_encode_decode.2 _ rfl (by decide)⟩

/-- Counterexample for C2: the typed Olm content struct stores the tag as an
ordinary public field, so a value of the Olm variant carrying the Megolm tag
is constructible. -/
theorem tag_mismatch_constructible :
    (⟨Algorithm.MegolmV1AesSha2, [], "key"⟩ :
      OlmV1Curve25519AesSha2Content).algorithm ≠
      Algorithm.OlmV1Curve25519AesSha2 := by decide

/-- Claim C2 (amended): every content value produced by the deserializer is
tag/variant-consistent — an Olm result carries the Olm tag and a Megolm
result carries the Megolm tag; consistency is not enforced for directly
constructed typed values. -/
theorem decoded_tag_variant_consistent :
    (∀ j c, rawContentDeserialize j = .ok (.OlmV1Curve25519AesSha2 c) →
      c.algorithm = .OlmV1Curve25519AesSha2) ∧
    (∀ j c, rawContentDeserialize j = .ok (.MegolmV1AesSha2 c) →
      c.algorithm = .MegolmV1AesSha2) := by
  constructor
  · intro j c h
    rcases j with _ | b | n | s | elems | fields
    iterate 5
      · exact absurd h (by simp [rawContentDeserialize, Json.get])
    unfold rawContentDeserialize at h
    simp only [Json.get] at h
    cases hga : getField fields "algorithm" with
    | none => simp [hga] at h
    | some ja =>
      simp only [hga] at h
      cases hda : deserAlgorithm ja with
      | error e => simp [hda] at h
      | ok m =>
        simp only [hda] at h
        cases m with
        | OlmV1Curve25519AesSha2 =>
          cases hdc : deserOlmContent (.obj fields) with
          | error e => simp [hdc] at h
          | ok c2 =>
            simp only [hdc] at h
            injection h with h
            injection h with h
            subst h
            obtain ⟨ja2, hja2, hda2⟩ := deserOlmContent_algorithm fields c2 hdc
            rw [hga] at hja2
            injection hja2 with hje
            subst hje
            rw [hda] at hda2
            injection hda2 with hae
            exact hae.symm
        | MegolmV1AesSha2 =>
          cases hdc : deserMegolmContent (.obj fields) with
          | error e => simp [hdc] at h
          | ok c2 => simp [hdc] at h
        | Custom s => simp at h
        | __Nonexhaustive => simp at h
  · intro j c h
    rcases j with _ | b | n | s | elems | fields
    iterate 5
      · exact absurd h (by simp [rawContentDeserialize, Json.get])
    unfold rawContentDeserialize at h
    simp only [Json.get] at h
    cases hga : getField fields "algorithm" with
    | none => simp [hga] at h
    | some ja =>
      simp only [hga] at h
      cases hda : deserAlgorithm ja with
      | error e => simp [hda] at h
      | ok m =>
        simp only [hda] at h
        cases m with
        | OlmV1Curve25519AesSha2 =>
          cases hdc : deserOlmContent (.obj fields) with
          | error e => simp [hdc] at h
          | ok c2 => simp [hdc] at h
        | MegolmV1AesSha2 =>
          cases hdc : deserMegolmContent (.obj fields) with
          | error e => simp [hdc] at h
          | ok c2 =>
            simp only [hdc] at h
            injection h with h
            injection h with h
            subst h
            obtain ⟨ja2, hja2, hda2⟩ := deserMegolmContent_algorithm fields c2 hdc
            rw [hga] at hja2
            injection hja2 with hje
            subst hje
            rw [hda] at hda2
            injection hda2 with hae
            exact hae.symm
        | Custom s => simp at h
        | __Nonexhaustive => simp at h

/-- Witness for C2: the consistency theorem applied to the concrete Olm
scenario input. -/
theorem decoded_tag_variant_consistent_witness :
    (OlmV1Curve25519AesSha2Content.mk .OlmV1Curve25519AesSha2
      [("test_curve_key", ⟨"encrypted_body", 1⟩)] "test_key").algorithm =
      .OlmV1Curve25519AesSha2 :=
  decoded_tag_variant_consistent.1 (.obj [("sender_key", .str "test_key"),
    ("ciphertext", .obj [("test_curve_key",
      .obj [("body", .str "encrypted_body"), ("type", .num 1)])]),
    ("algorithm", .str "m.olm.v1.curve25519-aes-sha2")]) _ rfl

theorem rawEventDeserialize_inversion (j : Json) (re : raw.EncryptedEvent)
    (h : rawEventDeserialize j = .ok re) :
    (∃ jc, j.get "content" = some jc ∧ rawContentDeserialize jc = .ok re.content) ∧
    (j.get "unsigned" = none → re.unsigned = defaultUnsigned) ∧
    (j.get "room_id" = none → re.room_id = none) := by
  rcases j with _ | b | n | s | elems | fields
  iterate 5
    · exact absurd h (by simp [rawEventDeserialize])
  unfold rawEventDeserialize at h
  simp only [Json.get]
  cases hgc : getField fields "content" with
  | none => simp [hgc] at h
  | some jc =>
    simp only [hgc] at h
    cases hdc : rawContentDeserialize jc with
    | error e => simp [hdc] at h
    | ok c =>
      simp only [hdc] at h
      cases hge : getField fields "event_id" with
      | none => simp [hge] at h
      | some je =>
        simp only [hge] at h
        cases hde : deserString je with
        | error e => simp [hde] at h
        | ok eid =>
          simp only [hde] at h
          cases hgt : getField fields "origin_server_ts" with
          | none => simp [hgt] at h
          | some jt =>
            simp only [hgt] at h
            cases hdt : deserTimestamp jt with
            | error e => simp [hdt] at h
            | ok ts =>
              simp only [hdt] at h
              cases hgr : getField fields "room_id" with
              | none =>
                simp only [hgr] at h
                cases hgsnd : getField fields "sender" with
                | none => simp [hgsnd] at h
                | some jsnd =>
                  simp only [hgsnd] at h
                  cases hdsnd : deserString jsnd with
                  | error e => simp [hdsnd] at h
                  | ok snd =>
                    simp only [hdsnd] at h
                    cases hgu : getField fields "unsigned" with
                    | none =>
                      simp only [hgu] at h
                      injection h with h
                      subst h
                      exact ⟨⟨jc, rfl, hdc⟩, fun _ => rfl, fun _ => rfl⟩
                    | some ju =>
                      simp only [hgu] at h
                      cases hdu : deserUnsigned ju with
                      | error e => simp [hdu] at h
                      | ok uns =>
                        simp only [hdu] at h
                        injection h with h
                        subst h
                        exact ⟨⟨jc, rfl, hdc⟩, fun hc => by simp at hc,
                               fun _ => rfl⟩
              | some jr =>
                simp only [hgr] at h
                cases hdr : deserString jr with
                | error e => simp [hdr] at h
                | ok r =>
                  simp only [hdr] at h
                  cases hgsnd : getField fields "sender" with
                  | none => simp [hgsnd] at h
                  | some jsnd =>
                    simp only [hgsnd] at h
                    cases hdsnd : deserString jsnd with
                    | error e => simp [hdsnd] at h
                    | ok snd =>
                      simp only [hdsnd] at h
                      cases hgu : getField fields "unsigned" with
                      | none =>
                        simp only [hgu] at h
                        injection h with h
                        subst h
                        exact ⟨⟨jc, rfl, hdc⟩, fun _ => rfl,
                               fun hc => by simp at hc⟩
                      | some ju =>
                        simp only [hgu] at h
                        cases hdu : deserUnsigned ju with
                        | error e => simp [hdu] at h
                        | ok uns =>
                          simp only [hdu] at h
                          injection h with h
                          subst h
                          exact ⟨⟨jc, rfl, hdc⟩, fun hc => by simp at hc,
                                 fun hc => by simp at hc⟩

/-- Claim C7: whenever an envelope decodes successfully, absence of the
`unsigned` key yields the default unsigned value and absence of the
`room_id` key yields `none`; and whenever the four required fields decode,
the absence of both optional fields does not make the decode fail. -/
theorem envelope_optionality :
    (∀ (j : Json) (ev : EncryptedEvent), decodeEvent j = .ok (some ev) →
      (j.get "unsigned" = none → ev.unsigned = defaultUnsigned) ∧
      (j.get "room_id" = none → ev.room_id = none)) ∧
    (∀ (fields : List (String × Json)) (jc : Json) (c : raw.EncryptedEventContent)
       (je : Json) (eid : String) (jt : Json) (ts : Nat) (jsnd : Json) (snd : String),
      getField fields "content" = some jc → rawContentDeserialize jc = .ok c →
      getField fields "event_id" = some je → deserString je = .ok eid →
      getField fields "origin_server_ts" = some jt → deserTimestamp jt = .ok ts →
      getField fields "sender" = some jsnd → deserString jsnd = .ok snd →
      getField fields "unsigned" = none → getField fields "room_id" = none →
      ∃ ev : EncryptedEvent, decodeEvent (.obj fields) = .ok (some ev) ∧
        ev.unsigned = defaultUnsigned ∧ ev.room_id = none) := by
  constructor
  · intro j ev h
    unfold decodeEvent at h
    cases hre : rawEventDeserialize j with
    | error e => simp [hre, Except.map] at h
    | ok re =>
      simp only [hre, Except.map] at h
      injection h with h
      obtain ⟨⟨jc, hjc, hdc⟩, hun, hrm⟩ := rawEventDeserialize_inversion j re hre
      unfold EncryptedEvent.from_raw at h
      cases hfr : EncryptedEventContent.from_raw re.content with
      | none => simp [hfr] at h
      | some tc =>
        simp only [hfr] at h
        injection h with h
        subst h
        exact ⟨fun ha => hun ha, fun ha => hrm ha⟩
  · intro fields jc c je eid jt ts jsnd snd h1 h2 h3 h4 h5 h6 h7 h8 h9 h10
    obtain ⟨hne, t, ht⟩ := decode_ok_not_nonexhaustive jc c h2
    refine ⟨⟨t, eid, ts, none, snd, defaultUnsigned⟩, ?_, rfl, rfl⟩
    unfold decodeEvent rawEventDeserialize
    simp only [h1, h2, h3, h4, h5, h6, h7, h8, h9, h10, Except.map,
               EncryptedEvent.from_raw, ht]

/-- Witness for C7: a concrete envelope with the four required fields and
neither optional field. -/
theorem envelope_optionality_witness :
    ∃ ev : EncryptedEvent, decodeEvent (.obj [("content",
      .obj [("algorithm", .str "m.megolm.v1.aes-sha2"),
            ("ciphertext", .str "ciphertext"), ("sender_key", .str "sender_key"),
            ("device_id", .str "device_id"), ("session_id", .str "session_id")]),
      ("event_id", .str "$h29iv0s8:example.com"), ("origin_server_ts", .num 1),
      ("sender", .str "@alice:example.com")]) = .ok (some ev) ∧
      ev.unsigned = defaultUnsigned ∧ ev.room_id = none :=
  envelope_optionality.2 _ _
    (.MegolmV1AesSha2 ⟨.MegolmV1AesSha2, "ciphertext", "sender_key", "device_id",
      "session_id"⟩) _ "$h29iv0s8:example.com" _ 1 _ "@alice:example.com"
    rfl rfl rfl rfl rfl rfl rfl rfl rfl rfl

/-- Claim C8: the raw→typed projection is total on everything the public
decode path can produce — the content deserializer never returns the
reserved marker, so `from_raw` succeeds on every decodable content and on
every decodable envelope. -/
theorem from_raw_total_on_decode :
    (∀ (j : Json) (r : raw.EncryptedEventContent), rawContentDeserialize j = .ok r →
      r ≠ raw.EncryptedEventContent.__Nonexhaustive ∧
      ∃ t, EncryptedEventContent.from_raw r = some t) ∧
    (∀ (j : Json) (re : raw.EncryptedEvent), rawEventDeserialize j = .ok re →
      ∃ tev, EncryptedEvent.from_raw re = some tev) := by
  constructor
  · exact decode_ok_not_nonexhaustive
  · intro j re h
    obtain ⟨⟨jc, hjc, hdc⟩, _, _⟩ := rawEventDeserialize_inversion j re h
    obtain ⟨hne, t, ht⟩ := decode_ok_not_nonexhaustive jc re.content hdc
    exact ⟨⟨t, re.event_id, re.origin_server_ts, re.room_id, re.sender, re.unsigned⟩,
           by unfold EncryptedEvent.from_raw; simp [ht]⟩

/-- Witness for C8: the totality theorem applied to a concrete content
object and a concrete envelope. -/
theorem from_raw_total_on_decode_witness :
    ((raw.EncryptedEventContent.MegolmV1AesSha2
        ⟨.MegolmV1AesSha2, "ciphertext", "sender_key", "device_id", "session_id"⟩ ≠
        raw.EncryptedEventContent.__Nonexhaustive ∧
      ∃ t, EncryptedEventContent.from_raw (.MegolmV1AesSha2
        ⟨.MegolmV1AesSha2, "ciphertext", "sender_key", "device_id", "session_id"⟩) =
        some t) ∧
     ∃ tev, EncryptedEvent.from_raw ⟨.MegolmV1AesSha2
        ⟨.MegolmV1AesSha2, "ciphertext", "sender_key", "device_id", "session_id"⟩,
        "$h29iv0s8:example.com", 1, none, "@alice:example.com", ⟨none, none⟩⟩ =
        some tev) :=
  ⟨from_raw_total_on_decode.1 (.obj [("algorithm", .str "m.megolm.v1.aes-sha2"),
      ("ciphertext", .str "ciphertext"), ("sender_key", .str "sender_key"),
      ("device_id", .str "device_id"), ("session_id", .str "session_id")]) _ rfl,
   from_raw_total_on_decode.2 (.obj [("content",
      .obj [("algorithm", .str "m.megolm.v1.aes-sha2"),
            ("ciphertext", .str "ciphertext"), ("sender_key", .str "sender_key"),
            ("device_id", .str "device_id"), ("session_id", .str "session_id")]),
      ("event_id", .str "$h29iv0s8:example.com"), ("origin_server_ts", .num 1),
      ("sender", .str "@alice:example.com")]) _ rfl⟩

/-- Claim C10: appending an object key outside the decoded variant's schema
to a successfully decoding content object leaves the decode result
unchanged — the extra key is ignored. -/
theorem extra_keys_ignored :
    ∀ (fields : List (String × Json)) (k : String) (v : Json)
      (c : raw.EncryptedEventContent),
      rawContentDeserialize (.obj fields) = .ok c → variantExtraKeyOk c k →
      rawContentDeserialize (.obj (fields ++ [(k, v)])) = .ok c := by
  intro fields k v c h hk
  cases c with
  | OlmV1Curve25519AesSha2 c2 =>
    have hk2 : k ∉ olmKeys := hk
    have h1 : "algorithm" ≠ k := fun he => hk2 (he ▸ by simp [olmKeys])
    unfold rawContentDeserialize at h ⊢
    simp only [Json.get] at h ⊢
    rw [getField_append_ne fields k v "algorithm" h1]
    cases hga : getField fields "algorithm" with
    | none => simp [hga] at h
    | some ja =>
      simp only [hga] at h ⊢
      cases hda : deserAlgorithm ja with
      | error e => simp [hda] at h
      | ok m =>
        simp only [hda] at h ⊢
        cases m with
        | OlmV1Curve25519AesSha2 =>
          rw [deserOlmContent_append fields k v hk2]
          cases hdc : deserOlmContent (.obj fields) with
          | error e => simp [hdc] at h
          | ok cc =>
            simp only [hdc] at h ⊢
            exact h
        | MegolmV1AesSha2 =>
          cases hdc : deserMegolmContent (.obj fields) with
          | error e => simp [hdc] at h
          | ok cc => simp [hdc] at h
        | Custom s => simp at h
        | __Nonexhaustive => simp at h
  | MegolmV1AesSha2 c2 =>
    have hk2 : k ∉ megolmKeys := hk
    have h1 : "algorithm" ≠ k := fun he => hk2 (he ▸ by simp [megolmKeys])
    unfold rawContentDeserialize at h ⊢
    simp only [Json.get] at h ⊢
    rw [getField_append_ne fields k v "algorithm" h1]
    cases hga : getField fields "algorithm" with
    | none => simp [hga] at h
    | some ja =>
      simp only [hga] at h ⊢
      cases hda : deserAlgorithm ja with
      | error e => simp [hda] at h
      | ok m =>
        simp only [hda] at h ⊢
        cases m with
        | OlmV1Curve25519AesSha2 =>
          cases hdc : deserOlmContent (.obj fields) with
          | error e => simp [hdc] at h
          | ok cc => simp [hdc] at h
        | MegolmV1AesSha2 =>
          rw [deserMegolmContent_append fields k v hk2]
          cases hdc : deserMegolmContent (.obj fields) with
          | error e => simp [hdc] at h
          | ok cc =>
            simp only [hdc] at h ⊢
            exact h
        | Custom s => simp at h
        | __Nonexhaustive => simp at h
  | __Nonexhaustive =>
    exact absurd rfl (decode_ok_not_nonexhaustive (.obj fields) _ h).1

/-- Witness for C10: the Megolm scenario object extended with an extra key
`"extra"` decodes to the same value. -/
theorem extra_keys_ignored_witness :
    rawContentDeserialize (.obj ([("algorithm", .str "m.megolm.v1.aes-sha2"),
      ("ciphertext", .str "ciphertext"), ("sender_key", .str "sender_key"),
      ("device_id", .str "device_id"), ("session_id", .str "session_id")] ++
      [("extra", .num 7)])) =
      .ok (.MegolmV1AesSha2
        ⟨.MegolmV1AesSha2, "ciphertext", "sender_key", "device_id", "session_id"⟩) :=
  extra_keys_ignored [("algorithm", .str "m.megolm.v1.aes-sha2"),
      ("ciphertext", .str "ciphertext"), ("sender_key", .str "sender_key"),
      ("device_id", .str "device_id"), ("session_id", .str "session_id")]
    "extra" (.num 7) _ rfl (by unfold variantExtraKeyOk megolmKeys; decide)
